import Mathlib

/-!
Verification development for the notify_bot reminder-scheduling engine.

The Lean definitions below are shallow embeddings of the Python source:
* `src/some/db.py` — canonical schedule model, delivery ledger, job lifecycle
  (`compute_next_run`, `log_delivery_attempt`, `rehydrate_scheduler_from_db`,
  `cancel_reminder`, `finalize_one_shot_after_send`);
* `src/ai_interval.py` — recurrence synthesizer (`_dow_csv`, `plan_to_crons`);
* `src/tools.py` — window helper (`compute_times_in_window`) and the defensive
  JSON extraction of `parse_interval_with_ai`;
* `src/time_parse.py` / `src/timeparse.py` — the two natural-language time
  parsers (`parse_human_datetime`, `handle_time_parse_and_confirm`).

Modelling conventions: UTC instants are `Int` (an abstract linear timeline);
local datetimes are a calendar record `DT`; Python `datetime` truthiness and
`Optional` are `Option`; functions that raise are `Except`/`Option`-valued;
a parsed RFC-5545 RRULE is modelled by its (finite) set of occurrence
instants, `dateutil`'s `rule.after(now, inc=False)` being the least
occurrence strictly after `now`.
-/

namespace NotifyBot

/-! ### Small list helpers (SQL `max`, `dateutil` `after`)

`maxAux`/`minAux` compute the maximum/minimum of a list of integers, `none`
on the empty list — the behaviour of SQL `SELECT max(...)` over a filtered
table and of picking the chronologically first occurrence. -/

def maxAux : List Int → Option Int
  | [] => none
  | x :: xs =>
    match maxAux xs with
    | none => some x
    | some m => some (max x m)

def minAux : List Int → Option Int
  | [] => none
  | x :: xs =>
    match minAux xs with
    | none => some x
    | some m => some (min x m)

/-! ### Data model (db.py: `Reminder`, `DeliveryLog`) -/

inductive RStatus where
  | active
  | paused
  | done
  | cancelled
deriving DecidableEq, Repr

inductive MPolicy where
  | send
  | skip
  | reschedule
deriving DecidableEq, Repr

/-- `Reminder` row (scheduling-relevant columns).  `rrule` is the parsed
RFC-5545 rule, modelled by its occurrence instants (`none` for a NULL/empty
`rrule` column, i.e. a one-shot reminder). -/
structure ReminderR where
  id : String
  rrule : Option (List Int)
  run_at_utc : Option Int
  next_run_utc : Option Int
  misfire_policy : MPolicy
  status : RStatus
deriving DecidableEq, Repr

/-- `dateutil` `rule.after(now, inc=False)`: the least occurrence strictly
after `now`, `none` when the rule is exhausted. -/
def ruleAfter (occs : List Int) (now : Int) : Option Int :=
  minAux (occs.filter (fun t => now < t))

/-- db.py `compute_next_run`: one-shot returns `run_at_utc` iff strictly in
the future of `after`; with an RRULE, the first occurrence strictly after
`after`. -/
def compute_next_run (rrule : Option (List Int)) (run_at_utc : Option Int)
    (after : Int) : Option Int :=
  match rrule with
  | some occs => ruleAfter occs after
  | none =>
    match run_at_utc with
    | some t => if after < t then some t else none
    | none => none

/-! ### db.py row-update helpers

`set_reminder_status` / `set_next_run` are SQL `UPDATE ... WHERE id = rid`;
the returned `Bool` is `rowcount > 0`, i.e. whether any row matched the
`WHERE` clause (SQLite counts every matched row, changed or not). -/

def set_reminder_status (db : List ReminderR) (rid : String) (st : RStatus) :
    List ReminderR × Bool :=
  (db.map (fun r => if r.id = rid then { r with status := st } else r),
   db.any (fun r => r.id == rid))

def set_next_run (db : List ReminderR) (rid : String) (nxt : Option Int) :
    List ReminderR × Bool :=
  (db.map (fun r => if r.id = rid then { r with next_run_utc := nxt } else r),
   db.any (fun r => r.id == rid))

/-! ### Delivery ledger (db.py `DeliveryLog`, `log_delivery_attempt`) -/

structure DRow where
  reminder_id : String
  planned_utc : Int
  attempt_no : Int
  ok : Bool
  error : Option String
deriving DecidableEq, Repr

def sameKey (rid : String) (planned : Int) (r : DRow) : Bool :=
  r.reminder_id == rid && r.planned_utc == planned

/-- The `SELECT max(attempt_no) WHERE reminder_id = ... AND planned_utc = ...`
of `log_delivery_attempt`. -/
def maxAttemptFor (logs : List DRow) (rid : String) (planned : Int) : Option Int :=
  maxAux ((logs.filter (sameKey rid planned)).map (fun r => r.attempt_no))

/-- db.py `log_delivery_attempt`: inserts a row whose `attempt_no` is
`(max existing or 0) + 1` (Python `scalar_one_or_none() or 0`; note `or`
maps both `None` and `0` to `0`, which coincides with `Option.getD 0`).
Returns the new row and the ledger with the row appended. -/
def log_delivery_attempt (logs : List DRow) (reminder_id : String)
    (planned_utc : Int) (ok : Bool) (error : Option String) : DRow × List DRow :=
  let current_max : Int :=
    match maxAttemptFor logs reminder_id planned_utc with
    | none => 0
    | some v => v
  let attempt_no := current_max + 1
  let row : DRow := ⟨reminder_id, planned_utc, attempt_no, ok, error⟩
  (row, logs ++ [row])

structure DReq where
  reminder_id : String
  planned_utc : Int
  ok : Bool
  error : Option String
deriving DecidableEq, Repr

/-- A ledger produced by a sequence of `log_delivery_attempt` calls starting
from the empty table. -/
def runLedger (reqs : List DReq) : List DRow :=
  reqs.foldl
    (fun logs q => (log_delivery_attempt logs q.reminder_id q.planned_utc q.ok q.error).2)
    []

/-- `(reminder_id, planned_utc, attempt_no)` is pairwise distinct —
the `uq_delivery_unique_attempt` invariant. -/
def uniqueTriples (logs : List DRow) : Prop :=
  logs.Pairwise (fun a b =>
    ¬(a.reminder_id = b.reminder_id ∧ a.planned_utc = b.planned_utc ∧
      a.attempt_no = b.attempt_no))

/-! ### Job registration (db.py APScheduler helpers)

The scheduler's job table is a list of `(job id, run time)` registrations;
`add_job(..., replace_existing=True)` replaces any job with the same id,
`remove_job` tolerates an absent id (the `try/except` in
`remove_scheduled_job`). -/

def reminder_job_id (reminder_id : String) : String :=
  "reminder:" ++ reminder_id

abbrev Jobs := List (String × Int)

def remove_scheduled_job (jobs : Jobs) (reminder_id : String) : Jobs :=
  jobs.filter (fun p => p.1 != reminder_job_id reminder_id)

def _schedule_single_job (jobs : Jobs) (reminder_id : String) (run_time_utc : Int) : Jobs :=
  remove_scheduled_job jobs reminder_id ++ [(reminder_job_id reminder_id, run_time_utc)]

/-! ### db.py `rehydrate_scheduler_from_db` -/

/-- Loop body of `rehydrate_scheduler_from_db` for one selected reminder:
returns the updated row and the run time of the timer registered for it
(`none` when the reminder is instead marked `done`).  Mirrors the misfire
branch on `run_time <= now`. -/
def rehydrateOne (now ahead_seconds : Int) (r : ReminderR) : ReminderR × Option Int :=
  match r.next_run_utc with
  | none => (r, none)
  | some run_time =>
    if run_time ≤ now then
      match r.misfire_policy with
      | MPolicy.send => (r, some (now + ahead_seconds))
      | MPolicy.skip =>
        match compute_next_run r.rrule r.run_at_utc now with
        | none => ({ r with next_run_utc := none, status := RStatus.done }, none)
        | some nxt => ({ r with next_run_utc := some nxt }, some nxt)
      | MPolicy.reschedule =>
        match compute_next_run r.rrule r.run_at_utc now with
        | none => ({ r with status := RStatus.done, next_run_utc := none }, none)
        | some nxt => ({ r with next_run_utc := some nxt }, some nxt)
    else (r, some run_time)

def rehydrateSelect (r : ReminderR) : Bool :=
  (r.status == RStatus.active) && r.next_run_utc.isSome

/-- db.py `rehydrate_scheduler_from_db`: applies the misfire policy to every
`active` reminder with a non-null `next_run_utc` and returns the updated
table together with the timer registrations made (in row order). -/
def rehydrate_scheduler_from_db (now ahead_seconds : Int) (db : List ReminderR) :
    List ReminderR × List (String × Int) :=
  (db.map (fun r => if rehydrateSelect r then (rehydrateOne now ahead_seconds r).1 else r),
   db.filterMap (fun r =>
     if rehydrateSelect r then
       ((rehydrateOne now ahead_seconds r).2).map (fun t => (reminder_job_id r.id, t))
     else none))

/-! ### db.py `cancel_reminder` and `finalize_one_shot_after_send` -/

/-- db.py `cancel_reminder`: marks the row cancelled (the returned `Bool` is
`set_reminder_status`'s `rowcount > 0`), removes the job (tolerating its
absence) and clears `next_run_utc`. -/
def cancel_reminder (db : List ReminderR) (jobs : Jobs) (reminder_id : String) :
    List ReminderR × Jobs × Bool :=
  let s := set_reminder_status db reminder_id RStatus.cancelled
  let jobs1 := remove_scheduled_job jobs reminder_id
  let d2 := (set_next_run s.1 reminder_id none).1
  (d2, jobs1, s.2)

/-- db.py `finalize_one_shot_after_send`: looks the reminder up; with an
RRULE, persists the next occurrence and re-registers the timer (marking
`done` when exhausted); without, marks `done` and removes the job.  Note: the
source performs no `status` check before re-registering. -/
def finalize_one_shot_after_send (now : Int) (db : List ReminderR) (jobs : Jobs)
    (reminder_id : String) : List ReminderR × Jobs :=
  match db.find? (fun r => r.id == reminder_id) with
  | none => (db, jobs)
  | some r =>
    match r.rrule with
    | some occs =>
      match compute_next_run (some occs) r.run_at_utc now with
      | none =>
        let d1 := (set_next_run db reminder_id none).1
        ((set_reminder_status d1 reminder_id RStatus.done).1,
         remove_scheduled_job jobs reminder_id)
      | some nxt =>
        let d1 := (set_next_run db reminder_id (some nxt)).1
        (d1, _schedule_single_job jobs reminder_id nxt)
    | none =>
      let d1 := (set_next_run db reminder_id none).1
      ((set_reminder_status d1 reminder_id RStatus.done).1,
       remove_scheduled_job jobs reminder_id)

/-! ### Python string primitives

All text is processed as `List Char` (Lean's `String` API does not reduce in
the kernel).  These helpers model the Python `str` operations used by the
source: `strip`, `lower` (ASCII range; the modelled inputs are already
lower-case Cyrillic), substring containment (`in`), `replace`, `split(",")`,
`",".join`. -/

/-- Python whitespace (`str.strip` / regex `\s`): space, TAB, LF, CR, VT, FF,
NBSP. -/
def pyIsSpace (c : Char) : Bool :=
  c = ' ' || c = '\t' || c = '\n' || c = '\r' || c.toNat = 11 || c.toNat = 12 ||
    c.toNat = 160

def pyStrip (l : List Char) : List Char :=
  ((l.dropWhile pyIsSpace).reverse.dropWhile pyIsSpace).reverse

def asciiLowerChar (c : Char) : Char :=
  if 'A' ≤ c && c ≤ 'Z' then Char.ofNat (c.toNat + 32) else c

def asciiLower (l : List Char) : List Char := l.map asciiLowerChar

/-- Python `needle in haystack` on strings. -/
def isSubstr (p : List Char) : List Char → Bool
  | [] => p.isEmpty
  | c :: t => p.isPrefixOf (c :: t) || isSubstr p t

/-- Python `str.replace(pat, repl)` (all occurrences, left to right); `fuel`
bounds the scan (callers pass the text length, enough for one full pass). -/
def replaceAllF (pat repl : List Char) : Nat → List Char → List Char
  | 0, s => s
  | _ + 1, [] => []
  | fuel + 1, c :: t =>
    if pat ≠ [] && pat.isPrefixOf (c :: t) then
      repl ++ replaceAllF pat repl fuel ((c :: t).drop pat.length)
    else c :: replaceAllF pat repl fuel t

def replaceAll (pat repl s : List Char) : List Char :=
  replaceAllF pat repl (s.length + 1) s

def charDigit (c : Char) : Option Nat :=
  if c.isDigit then some (c.toNat - 48) else none

/-- `",".join` -/
def joinComma : List String → String
  | [] => ""
  | x :: xs => xs.foldl (fun a b => a ++ "," ++ b) x

/-- `s.split(",")` -/
def splitCommaAux : List Char → List Char → List String
  | [], acc => [String.mk acc.reverse]
  | c :: t, acc =>
    if c = ',' then String.mk acc.reverse :: splitCommaAux t []
    else splitCommaAux t (c :: acc)

def splitComma (s : String) : List String := splitCommaAux s.data []

/-- Order-preserving de-duplication (the `seen`/`uniq` loop of `_dow_csv`). -/
def dedupeAux : List String → List String → List String
  | _, [] => []
  | seen, x :: xs =>
    if seen.contains x then dedupeAux seen xs
    else x :: dedupeAux (x :: seen) xs

def dedupe (l : List String) : List String := dedupeAux [] l

/-! ### ai_interval.py — recurrence synthesizer -/

/-- `DOW_NAME_TO_CRON` (dict literal, insertion order). -/
def DOW_NAME_TO_CRON : List (String × String) :=
  [("mon", "mon"), ("monday", "mon"), ("понедельник", "mon"), ("пн", "mon"),
   ("tue", "tue"), ("tuesday", "tue"), ("вторник", "tue"), ("вт", "tue"),
   ("wed", "wed"), ("wednesday", "wed"), ("среда", "wed"), ("ср", "wed"),
   ("thu", "thu"), ("thursday", "thu"), ("четверг", "thu"), ("чт", "thu"),
   ("fri", "fri"), ("friday", "fri"), ("пятница", "fri"), ("пт", "fri"),
   ("sat", "sat"), ("saturday", "sat"), ("суббота", "sat"), ("сб", "sat"),
   ("sun", "sun"), ("sunday", "sun"), ("воскресенье", "sun"), ("вс", "sun"),
   ("weekend", "sat,sun"), ("выходные", "sat,sun"),
   ("будни", "mon,tue,wed,thu,fri"), ("weekdays", "mon,tue,wed,thu,fri")]

/-- `_dow_csv`: canonicalize each listed day via the table (skipping unknown
tokens), splitting multi-day expansions, de-duplicating in order, and
comma-joining. -/
def _dow_csv (days : List String) : String :=
  let out := days.foldl
    (fun acc d =>
      let key := String.mk (asciiLower (pyStrip d.data))
      match DOW_NAME_TO_CRON.lookup key with
      | none => acc
      | some mapped => acc ++ splitComma mapped)
    []
  joinComma (dedupe out)

/-- Core of the `^\s*(\d{1,2})[:.](\d{2})\s*$` match of `_hhmm_to_pair`:
optional spaces, a 1–2-digit hour, `:` or `.`, exactly two minute digits,
optional spaces, end of string. -/
def hhmmTail (hh : Nat) : List Char → Option (Nat × Nat)
  | sep :: m1 :: m2 :: rest =>
    if sep = ':' || sep = '.' then
      match charDigit m1, charDigit m2 with
      | some v1, some v2 =>
        if (rest.dropWhile pyIsSpace).isEmpty then some (hh, 10 * v1 + v2) else none
      | _, _ => none
    else none
  | _ => none

def hhmmCore (l : List Char) : Option (Nat × Nat) :=
  match l.dropWhile pyIsSpace with
  | [] => none
  | d1 :: rest =>
    match charDigit d1 with
    | none => none
    | some v1 =>
      match rest with
      | d2 :: rest2 =>
        match charDigit d2 with
        | some v2 => hhmmTail (10 * v1 + v2) rest2 <|> hhmmTail v1 rest
        | none => hhmmTail v1 rest
      | [] => none

instance {ε α : Type} [DecidableEq ε] [DecidableEq α] : DecidableEq (Except ε α)
  | Except.ok a, Except.ok b =>
    if h : a = b then isTrue (by rw [h]) else isFalse (fun hc => by cases hc; exact h rfl)
  | Except.error a, Except.error b =>
    if h : a = b then isTrue (by rw [h]) else isFalse (fun hc => by cases hc; exact h rfl)
  | Except.ok _, Except.error _ => isFalse (fun hc => by cases hc)
  | Except.error _, Except.ok _ => isFalse (fun hc => by cases hc)

/-- ai_interval.py `_hhmm_to_pair` (raising `ValueError` is `Except.error`). -/
def _hhmm_to_pair (s : String) : Except String (Nat × Nat) :=
  match hhmmCore s.data with
  | none => Except.error ("Bad HH:MM: " ++ s)
  | some (hh, mm) =>
    if hh ≤ 23 && mm ≤ 59 then Except.ok (hh, mm)
    else Except.error ("Bad time bounds: " ++ s)

/-- ai_interval.py `IntervalPlan` (normalized plan). -/
structure IntervalPlan where
  kind : String
  times : List String
  days_of_week : List String
  tz : String
  cron : Option String
  window_start : Option String
  window_end : Option String
  interval_minutes : Option Int
deriving DecidableEq, Repr

/-- Python truthiness of an optional string (`None` and `""` are falsy). -/
def pyTruthyStr : Option String → Bool
  | none => false
  | some s => s ≠ ""

/-- Python truthiness of an optional int (`None` and `0` are falsy). -/
def pyTruthyInt : Option Int → Bool
  | none => false
  | some n => n ≠ 0

/-- The `for t in times: h, m = _hhmm_to_pair(t); crons.append(f"{m} {h} * * {dow}")`
loop (first bad time raises). -/
def timesToCrons (dow : String) : List String → Except String (List String)
  | [] => Except.ok []
  | t :: ts => do
    let hm ← _hhmm_to_pair t
    let rest ← timesToCrons dow ts
    Except.ok ((toString hm.2 ++ " " ++ toString hm.1 ++ " * * " ++ dow) :: rest)

/-- ai_interval.py `plan_to_crons`. -/
def plan_to_crons (plan : IntervalPlan) : Except String (List String) :=
  if plan.kind = "cron" && pyTruthyStr plan.cron then
    Except.ok [plan.cron.getD ""]
  else if plan.kind = "daily" then
    timesToCrons "*" plan.times
  else if plan.kind = "weekly" then
    let dow0 := _dow_csv plan.days_of_week
    let dow := if dow0 = "" then "mon,tue,wed,thu,fri" else dow0
    timesToCrons dow plan.times
  else if plan.kind = "window_interval" then
    if !pyTruthyStr plan.window_start || !pyTruthyStr plan.window_end ||
        !pyTruthyInt plan.interval_minutes then
      Except.error "Incomplete window_interval"
    else do
      let sp ← _hhmm_to_pair (plan.window_start.getD "")
      let ep ← _hhmm_to_pair (plan.window_end.getD "")
      let hours := toString sp.1 ++ "-" ++ toString ep.1
      let mins := "*/" ++ toString (plan.interval_minutes.getD 0)
      let dow := let d := _dow_csv plan.days_of_week; if d = "" then "*" else d
      Except.ok [mins ++ " " ++ hours ++ " * * " ++ dow]
  else if plan.kind = "one_time" then
    timesToCrons "*" plan.times
  else
    timesToCrons "*" (if plan.times = [] then ["09:00"] else plan.times)

/-! ### tools.py — `compute_times_in_window` -/

/-- `datetime.strptime(s, "%H:%M")`: a 1–2-digit hour, `:`, a 1–2-digit
minute, nothing else; bounds 0–23 / 0–59 (`ValueError` is `none`). -/
def strptimeTail (hh : Nat) : List Char → Option (Nat × Nat)
  | ':' :: m1 :: rest =>
    match charDigit m1 with
    | none => none
    | some v1 =>
      match rest with
      | m2 :: rest2 =>
        match charDigit m2 with
        | some v2 => if rest2.isEmpty then some (hh, 10 * v1 + v2) else none
        | none => if rest.isEmpty then some (hh, v1) else none
      | [] => some (hh, v1)
  | _ => none

def strptimeHM (s : String) : Option (Nat × Nat) :=
  match s.data with
  | [] => none
  | d1 :: rest =>
    match charDigit d1 with
    | none => none
    | some v1 =>
      let r :=
        match rest with
        | d2 :: rest2 =>
          match charDigit d2 with
          | some v2 => strptimeTail (10 * v1 + v2) rest2 <|> strptimeTail v1 rest
          | none => strptimeTail v1 rest
        | [] => none
      match r with
      | some (hh, mm) => if hh ≤ 23 && mm ≤ 59 then some (hh, mm) else none
      | none => none

def pad2 (n : Nat) : String := if n < 10 then "0" ++ toString n else toString n

/-- `cur.strftime("%H:%M")` where `cur` is `minutes` minutes past midnight of
the `strptime` reference date. -/
def fmtHM (minutes : Nat) : String := pad2 (minutes / 60 % 24) ++ ":" ++ pad2 (minutes % 60)

/-- The `while cur <= t1: out.append(...); cur += step` loop of
`compute_times_in_window`, with explicit fuel bounding the number of
iterations; `none` models a loop that has not terminated within `fuel`
iterations (with `step = 0` the loop never terminates). -/
def windowLoopFuel (endM step : Nat) : Nat → Nat → Option (List String)
  | 0, _ => none
  | fuel + 1, cur =>
    if cur ≤ endM then (windowLoopFuel endM step fuel (cur + step)).map (fmtHM cur :: ·)
    else some []

/-- tools.py `compute_times_in_window` (for terminating runs; the fuel
`endM + 2` exceeds the iteration count whenever `step_minutes ≥ 1`). -/
def compute_times_in_window (window_start window_end : String) (step_minutes : Nat) :
    Option (List String) :=
  match strptimeHM window_start, strptimeHM window_end with
  | some sp, some ep =>
    let startM := sp.1 * 60 + sp.2
    let endM := ep.1 * 60 + ep.2
    windowLoopFuel endM step_minutes (endM + 2) startM
  | _, _ => none

/-! ### tools.py — defensive JSON extraction of `parse_interval_with_ai`

`json.loads` and `bytes(...).decode("unicode_escape")` are external to the
claim: they are abstracted as parameters `jsonLoads : String → Option J`
(`none` = raises) together with `isDict : J → Bool` (`isinstance(data, dict)`),
and `unescape : String → Option String`.  The LLM call is an
`Except Unit (Option String)`: `error` = the request raised,
`ok content` = a response whose `message.content` is `content`
(`none` = the JSON `null` content, mapped to `""` by `or ""`). -/

/-- `_extract_balanced_json_block`'s scanning loop, starting at the first
`{` (depth/in-string/escape state machine; returns the accumulated prefix
when the depth first returns to 0). -/
def balLoop : List Char → Int → Bool → Bool → List Char → Option (List Char)
  | [], _, _, _, _ => none
  | c :: rest, depth, inString, escape, buf =>
    let buf' := buf ++ [c]
    if inString then
      if escape then balLoop rest depth inString false buf'
      else if c = '\\' then balLoop rest depth inString true buf'
      else if c = '"' then balLoop rest depth false escape buf'
      else balLoop rest depth inString escape buf'
    else if c = '"' then balLoop rest depth true escape buf'
    else if c = '{' then balLoop rest (depth + 1) inString escape buf'
    else if c = '}' then
      if depth - 1 = 0 then some buf' else balLoop rest (depth - 1) inString escape buf'
    else balLoop rest depth inString escape buf'

/-- tools.py `_extract_balanced_json_block`. -/
def _extract_balanced_json_block (s : String) : Option String :=
  match s.data.dropWhile (fun c => c ≠ '{') with
  | [] => none
  | l => (balLoop l 0 false false []).map String.mk

/-- The fenced-code-block search
`re.search(r"```(?:json|JSON)?\s*(.*?)\s*```", text, DOTALL)`: at the first
(leftmost) triple backtick that has a closing triple backtick after it, the
capture is the text in between, past an optional `json`/`JSON` tag, with
surrounding whitespace stripped (the effect of the greedy `\s*`s around the
lazy group). -/
def splitAtSub (pat : List Char) : List Char → Option (List Char × List Char)
  | [] => if pat.isEmpty then some ([], []) else none
  | c :: t =>
    if pat.isPrefixOf (c :: t) then some ([], (c :: t).drop pat.length)
    else (splitAtSub pat t).map (fun p => (c :: p.1, p.2))

def fenceMark : List Char := "```".data

def findFenceTagged : List Char → Option (List Char)
  | [] => none
  | c :: t =>
    if fenceMark.isPrefixOf (c :: t) then
      let rest := (c :: t).drop 3
      let rest2 :=
        if ("json".data).isPrefixOf rest then rest.drop 4
        else if ("JSON".data).isPrefixOf rest then rest.drop 4
        else rest
      match splitAtSub fenceMark rest2 with
      | some bp => some (pyStrip bp.1)
      | none => findFenceTagged t
    else findFenceTagged t

def findFenceAny : List Char → Option (List Char)
  | [] => none
  | c :: t =>
    if fenceMark.isPrefixOf (c :: t) then
      let rest := (c :: t).drop 3
      match splitAtSub fenceMark rest with
      | some bp => some bp.1
      | none => findFenceAny t
    else findFenceAny t

/-- tools.py `_extract_json_payload`. -/
def _extract_json_payload (content : String) : Option String :=
  if content = "" then none
  else
    let text := pyStrip content.data
    match findFenceTagged text with
    | some inner => some (String.mk (pyStrip inner))
    | none =>
      match findFenceAny text with
      | some body =>
        let payload := pyStrip body
        if payload.contains '{' && payload.contains '}' then some (String.mk payload)
        else
          match _extract_balanced_json_block (String.mk text) with
          | some b => some (String.mk (pyStrip b.data))
          | none => none
      | none =>
        match _extract_balanced_json_block (String.mk text) with
        | some b => some (String.mk (pyStrip b.data))
        | none => none

/-- `payload[1:-1]` for the quoted-blob fallback. -/
def stripFirstLast (s : String) : String :=
  String.mk ((s.data.drop 1).dropLast)

/-- tools.py `parse_interval_with_ai`, from the LLM response on: every
parsing stage that raises is caught; the function returns `some dict` or
`none` ("could not interpret"), never an exception. -/
def parse_interval_with_ai {J : Type} (jsonLoads : String → Option J)
    (isDict : J → Bool) (unescape : String → Option String)
    (resp : Except Unit (Option String)) : Option J :=
  match resp with
  | Except.error _ => none
  | Except.ok contentOpt =>
    let content := String.mk (pyStrip (contentOpt.getD "").data)
    match _extract_json_payload content with
    | none => none
    | some payload =>
      if payload = "" then none
      else
        match jsonLoads payload with
        | some d => if isDict d then some d else none
        | none =>
          let fromUnquote : Option J :=
            if payload.data.head? = some '"' && payload.data.getLast? = some '"' then
              match unescape (stripFirstLast payload) with
              | some unq =>
                match jsonLoads unq with
                | some d => if isDict d then some d else none
                | none => none
              | none => none
            else none
          match fromUnquote with
          | some d => some d
          | none =>
            match _extract_balanced_json_block payload with
            | some block =>
              if block ≠ payload then
                match jsonLoads block with
                | some d => if isDict d then some d else none
                | none => none
              else none
            | none => none

/-! ### Naive local datetimes (Python `datetime`, minute precision)

The parsed texts carry no timezone hints, so `_guess_tz` returns the default
timezone and `astimezone` is the identity; the `tz` component of the parsers'
results is therefore not modelled.  `DT` is a naive local datetime; `dtKey`
is a strictly monotone linearization used for `datetime` comparison. -/

structure DT where
  year : Nat
  month : Nat
  day : Nat
  hour : Nat
  minute : Nat
deriving DecidableEq, Repr

def isLeap (y : Nat) : Bool := (y % 4 = 0 && y % 100 ≠ 0) || y % 400 = 0

def daysInMonth (y m : Nat) : Nat :=
  if m = 2 then (if isLeap y then 29 else 28)
  else if m = 4 || m = 6 || m = 9 || m = 11 then 30
  else 31

def nextDay (d : DT) : DT :=
  if d.day < daysInMonth d.year d.month then { d with day := d.day + 1 }
  else if d.month < 12 then { d with month := d.month + 1, day := 1 }
  else { d with year := d.year + 1, month := 1, day := 1 }

/-- `d + timedelta(days = n)` (time of day preserved). -/
def addDays : DT → Nat → DT
  | d, 0 => d
  | d, n + 1 => addDays (nextDay d) n

/-- `.replace(hour=0, minute=0, second=0, microsecond=0)` -/
def zeroTime (d : DT) : DT := { d with hour := 0, minute := 0 }

def dtKey (d : DT) : Nat :=
  ((d.year * 400 + d.month) * 40 + d.day) * 1440 + d.hour * 60 + d.minute

/-- Python `datetime.weekday()` (Monday = 0), by the civil-calendar
day-count. -/
def dayOfWeekMon (d : DT) : Nat :=
  let y : Int := if d.month ≤ 2 then (d.year : Int) - 1 else (d.year : Int)
  let era : Int := (if 0 ≤ y then y else y - 399) / 400
  let yoe : Int := y - era * 400
  let mp : Int := ((d.month : Int) + 9) % 12
  let doy : Int := (153 * mp + 2) / 5 + (d.day : Int) - 1
  let doe : Int := yoe * 365 + yoe / 4 - yoe / 100 + doy
  let days : Int := era * 146097 + doe - 719468
  (((days + 3) % 7 + 7) % 7).toNat

/-! ### Regex-search scaffolding (`\b`, scanning, digit groups)

Python `re` with `str` patterns: `\w` is letters (incl. Cyrillic), digits and
`_`; `\b` holds where exactly one side is a word character. -/

def isWordChar (c : Char) : Bool :=
  c.isAlpha || c.isDigit || c = '_' || (0x400 ≤ c.toNat && c.toNat ≤ 0x4FF)

def prevNonWord : Option Char → Bool
  | none => true
  | some c => !isWordChar c

/-- `\b` between a just-matched last character and the rest of the text. -/
def boundaryAfter (lastc : Char) : List Char → Bool
  | [] => isWordChar lastc
  | c :: _ => isWordChar lastc ≠ isWordChar c

def boundaryBefore (prev : Option Char) (firstc : Char) : Bool :=
  match prev with
  | none => isWordChar firstc
  | some c => isWordChar c ≠ isWordChar firstc

/-- `re.search`: try a match at every start position, left to right, keeping
the character preceding the current position for `\b` tests. -/
def scanFor {α : Type} (tryAt : Option Char → List Char → Option α) :
    Option Char → List Char → Option α
  | prev, [] => tryAt prev []
  | prev, c :: t =>
    match tryAt prev (c :: t) with
    | some r => some r
    | none => scanFor tryAt (some c) t

/-- `re.search(rf"\b{tok}\b", text)` as a Boolean. -/
def tokenAt (tok : List Char) (prev : Option Char) (l : List Char) : Bool :=
  tok.isPrefixOf l &&
  (match tok.head? with
   | none => false
   | some f => boundaryBefore prev f) &&
  (match tok.getLast? with
   | none => false
   | some lastc => boundaryAfter lastc (l.drop tok.length))

def scanToken (tok : List Char) : Option Char → List Char → Bool
  | prev, [] => tokenAt tok prev []
  | prev, c :: t => tokenAt tok prev (c :: t) || scanToken tok (some c) t

def searchWordToken (tok : List Char) (text : List Char) : Bool :=
  scanToken tok none text

def dropSpaces (l : List Char) : List Char := l.dropWhile pyIsSpace

/-- A greedy `(\d{1,2})` with the one-step backtrack of the regex engine:
the continuation is tried with two digits first, then with one. -/
def twoThen {α : Type} (l : List Char) (k : Nat → List Char → Option α) : Option α :=
  match l with
  | a :: b :: rest =>
    match charDigit a, charDigit b with
    | some va, some vb => k (10 * va + vb) rest <|> k va (b :: rest)
    | some va, none => k va (b :: rest)
    | _, _ => none
  | [a] => (charDigit a).bind (fun va => k va [])
  | [] => none

/-- Exactly `n` digits. -/
def exactDigits : Nat → List Char → Option (Nat × List Char)
  | 0, l => some (0, l)
  | n + 1, c :: t =>
    match charDigit c with
    | some v => (exactDigits n t).map (fun p => (v * 10 ^ n + p.1, p.2))
    | none => none
  | _ + 1, [] => none

def boundaryAfterDigits : List Char → Bool
  | [] => true
  | c :: _ => !isWordChar c

/-! ### time_parse.py — `_extract_time`, `_extract_date`,
`_part_of_day_bias`, `parse_human_datetime` -/

inductive AmPm where
  | am
  | pm
deriving DecidableEq, Repr

inductive Pod where
  | am
  | pm
  | night
deriving DecidableEq, Repr

/-- `\b(pm|p\.m\.)\b` / `\b(am|a\.m\.)\b` searches. -/
def findAmPm (t : List Char) : Option AmPm :=
  if searchWordToken "pm".data t || searchWordToken "p.m.".data t then some AmPm.pm
  else if searchWordToken "am".data t || searchWordToken "a.m.".data t then some AmPm.am
  else none

/-- `\b(\d{1,2})[:.](\d{2})\b` (patterns (i) and (iv) of `_extract_time`). -/
def hmAt (prev : Option Char) (l : List Char) : Option (Nat × Nat) :=
  if prevNonWord prev then
    twoThen l (fun h r1 =>
      match r1 with
      | sep :: r2 =>
        if sep = ':' || sep = '.' then
          match exactDigits 2 r2 with
          | some mi => if boundaryAfterDigits mi.2 then some (h, mi.1) else none
          | none => none
        else none
      | [] => none)
  else none

def searchHM (t : List Char) : Option (Nat × Nat) := scanFor hmAt none t

/-- The preposition alternation `(?:в|во|at)` (with preceding `\b`), with
regex backtracking across the alternatives; the continuation receives the
rest after the preposition. -/
def prepThen {α : Type} (prev : Option Char) (l : List Char)
    (k : List Char → Option α) : Option α :=
  if prevNonWord prev then
    match l with
    | 'в' :: r =>
      k r <|> (if ("о".data).isPrefixOf r then k (r.drop 1) else none)
    | 'a' :: 't' :: r => k r
    | _ => none
  else none

/-- `\b(?:в|во|at)\s*(\d{1,2})\s+(\d{2})\b` (pattern (ii)). -/
def prepHMAt (prev : Option Char) (l : List Char) : Option (Nat × Nat) :=
  prepThen prev l (fun r0 =>
    twoThen (dropSpaces r0) (fun h r1 =>
      let r2 := dropSpaces r1
      if r2.length < r1.length then
        match exactDigits 2 r2 with
        | some mi => if boundaryAfterDigits mi.2 then some (h, mi.1) else none
        | none => none
      else none))

def searchPrepHM (t : List Char) : Option (Nat × Nat) := scanFor prepHMAt none t

/-- `\b(?:в|во|at)\s*(\d{1,2})\b` (pattern (iii)). -/
def prepHAt (prev : Option Char) (l : List Char) : Option Nat :=
  prepThen prev l (fun r0 =>
    twoThen (dropSpaces r0) (fun h r1 =>
      if boundaryAfterDigits r1 then some h else none))

def searchPrepH (t : List Char) : Option Nat := scanFor prepHAt none t

/-- `\b(\d{2})(\d{2})\b` (pattern (v)). -/
def ddddAt (prev : Option Char) (l : List Char) : Option (Nat × Nat) :=
  if prevNonWord prev then
    match exactDigits 2 l with
    | some p1 =>
      match exactDigits 2 p1.2 with
      | some p2 => if boundaryAfterDigits p2.2 then some (p1.1, p2.1) else none
      | none => none
    | none => none
  else none

def searchDDDD (t : List Char) : Option (Nat × Nat) := scanFor ddddAt none t

/-- time_parse.py `_extract_time`: the five regex attempts in source order
(the fourth is the same pattern as the first). -/
def _extract_time (text : String) : Option (Nat × Nat × Option AmPm) :=
  let t := asciiLower text.data
  match searchHM t with
  | some hm => some (hm.1, hm.2, findAmPm t)
  | none =>
    match searchPrepHM t with
    | some hm => some (hm.1, hm.2, findAmPm t)
    | none =>
      match searchPrepH t with
      | some h => some (h, 0, findAmPm t)
      | none =>
        match searchHM t with
        | some hm => some (hm.1, hm.2, none)
        | none =>
          match searchDDDD t with
          | some hm => some (hm.1, hm.2, none)
          | none => none

/-- time_parse.py `_part_of_day_bias`. -/
def _part_of_day_bias (text : String) : Option Pod :=
  let t := asciiLower text.data
  if isSubstr "утром".data t || isSubstr "morning".data t then some Pod.am
  else if isSubstr "днём".data t || isSubstr "днем".data t ||
      isSubstr "afternoon".data t then some Pod.pm
  else if isSubstr "вечером".data t || isSubstr "evening".data t then some Pod.pm
  else if isSubstr "ночью".data t || isSubstr "night".data t then some Pod.night
  else none

/-- `now.replace(year=yy, month=mm, day=dd, hour=0, ...)`; `ValueError` on an
invalid date is `none`. -/
def replaceYMD (_now : DT) (yy mm dd : Nat) : Option DT :=
  if 1 ≤ yy && yy ≤ 9999 && 1 ≤ mm && mm ≤ 12 && 1 ≤ dd && dd ≤ daysInMonth yy mm then
    some ⟨yy, mm, dd, 0, 0⟩
  else none

/-- `\b(\d{1,2})[./](\d{1,2})(?:[./](\d{2,4}))?\b`. -/
def ddmmAt (prev : Option Char) (l : List Char) : Option (Nat × Nat × Option Nat) :=
  if prevNonWord prev then
    twoThen l (fun dd r1 =>
      match r1 with
      | sep :: r2 =>
        if sep = '.' || sep = '/' then
          twoThen r2 (fun mm r3 =>
            let withYear : Option (Nat × Nat × Option Nat) :=
              match r3 with
              | sep2 :: r4 =>
                if sep2 = '.' || sep2 = '/' then
                  let tryN := fun (n : Nat) =>
                    match exactDigits n r4 with
                    | some yp =>
                      if boundaryAfterDigits yp.2 then some (dd, mm, some yp.1) else none
                    | none => none
                  tryN 4 <|> tryN 3 <|> tryN 2
                else none
              | [] => none
            withYear <|>
              (if boundaryAfterDigits r3 then some (dd, mm, none) else none))
        else none
      | [] => none)
  else none

def searchDDMM (t : List Char) : Option (Nat × Nat × Option Nat) := scanFor ddmmAt none t

/-- `\b(\d{4})-(\d{2})-(\d{2})\b`. -/
def ymdAt (prev : Option Char) (l : List Char) : Option (Nat × Nat × Nat) :=
  if prevNonWord prev then
    match exactDigits 4 l with
    | some yp =>
      match yp.2 with
      | '-' :: r1 =>
        match exactDigits 2 r1 with
        | some mp =>
          match mp.2 with
          | '-' :: r2 =>
            match exactDigits 2 r2 with
            | some dp =>
              if boundaryAfterDigits dp.2 then some (yp.1, mp.1, dp.1) else none
            | none => none
          | _ => none
        | none => none
      | _ => none
    | none => none
  else none

def searchYMD (t : List Char) : Option (Nat × Nat × Nat) := scanFor ymdAt none t

/-- `RU_DOW` / `EN_DOW` in dict insertion order. -/
def RU_DOW : List (String × Nat) :=
  [("понедельник", 0), ("вторник", 1), ("среда", 2), ("четверг", 3),
   ("пятница", 4), ("суббота", 5), ("воскресенье", 6),
   ("пн", 0), ("вт", 1), ("ср", 2), ("чт", 3), ("пт", 4), ("сб", 5), ("вс", 6)]

def EN_DOW : List (String × Nat) :=
  [("monday", 0), ("tuesday", 1), ("wednesday", 2), ("thursday", 3),
   ("friday", 4), ("saturday", 5), ("sunday", 6),
   ("mon", 0), ("tue", 1), ("wed", 2), ("thu", 3), ("fri", 4), ("sat", 5), ("sun", 6)]

def findWeekday (t : List Char) (lang : String) : Option Nat :=
  let table := if lang = "ru" then RU_DOW else EN_DOW
  (table.find? (fun kv => searchWordToken kv.1.data t)).map (fun kv => kv.2)

/-- time_parse.py `_extract_date` (relative day words, `dd.mm[.yyyy]`,
`yyyy-mm-dd`, weekday names). -/
def _extract_date (text : String) (now : DT) (lang : String) : Option DT :=
  let t := pyStrip (asciiLower text.data)
  if isSubstr "сегодня".data t || isSubstr "today".data t then some (zeroTime now)
  else if isSubstr "завтра".data t || isSubstr "tomorrow".data t then
    some (zeroTime (addDays now 1))
  else if isSubstr "послезавтра".data t then some (zeroTime (addDays now 2))
  else
    match searchDDMM t with
    | some dmy => replaceYMD now (dmy.2.2.getD now.year) dmy.2.1 dmy.1
    | none =>
      match searchYMD t with
      | some ymd => replaceYMD now ymd.1 ymd.2.1 ymd.2.2
      | none =>
        match findWeekday t lang with
        | some idx =>
          let wd := dayOfWeekMon now
          let delta := (idx + 7 - wd % 7) % 7
          let base := if delta = 0 then addDays now 7 else addDays now delta
          some (zeroTime base)
        | none => none

/-- time_parse.py `ParseResult` (the `tz` field is not modelled, see `DT`). -/
structure PHResult where
  dt : Option DT
  hour_min : Option (Nat × Nat)
  need_day : Bool
deriving DecidableEq, Repr

/-- time_parse.py `parse_human_datetime`. -/
def parse_human_datetime (now : DT) (text : String) (lang : String) : PHResult :=
  match _extract_time text with
  | none => ⟨none, none, false⟩
  | some (h0, mi, ampm) =>
    let pod := _part_of_day_bias text
    let h :=
      if ampm = some AmPm.pm ∧ h0 < 12 then h0 + 12
      else if ampm = some AmPm.am ∧ h0 = 12 then 0
      else if pod = some Pod.pm ∧ h0 < 12 then h0 + 12
      else h0
    match _extract_date text now lang with
    | none => ⟨none, some (h, mi), true⟩
    | some d =>
      let dt : DT := { d with hour := h, minute := mi }
      let lowered := asciiLower text.data
      let dt :=
        if (isSubstr "сегодня".data lowered || isSubstr "today".data lowered) ∧
            ampm = none ∧ pod = none ∧ dtKey dt ≤ dtKey now ∧ h < 12 ∧ h + 12 ≤ 23 then
          { dt with hour := h + 12 }
        else dt
      ⟨some dt, none, false⟩

/-! ### timeparse.py — `handle_time_parse_and_confirm`

The handler's time computation: text normalization, day-word extraction, the
four explicit regex patterns with `apply_period`/`build_dt`, and the final
strictly-future check.  The `dateparser` fallback is an external library and
is modelled as "no parse"; it is unreachable whenever one of the explicit
patterns matches.  Telegram/FSM I/O is outside the model; the returned value
is the accepted `run_at` (`none` when the handler answers `time_error`). -/

/-- `re.sub(r"[, ]+", " ", ...)` then `re.sub(r"\s+", " ", ...)` then
`strip`: commas/NBSP become spaces, whitespace runs collapse. -/
def collapseWS : List Char → Bool → List Char
  | [], _ => []
  | c :: t, prevSpace =>
    if pyIsSpace c then
      if prevSpace then collapseWS t true else ' ' :: collapseWS t true
    else c :: collapseWS t false

def normalizeHandlerText (l : List Char) : List Char :=
  let l1 := l.map (fun c => if c = ',' || c.toNat = 160 then ' ' else c)
  pyStrip (collapseWS l1 false)

/-- The `for token, shift in (("послезавтра", 2), ("завтра", 1), ("сегодня", 0))`
loop: `day_shift = max(day_shift, shift)`, token stripped from the text. -/
def stripDayTokens (text : List Char) : Nat × List Char :=
  [("послезавтра".data, 2), ("завтра".data, 1), ("сегодня".data, 0)].foldl
    (fun acc tk =>
      if isSubstr tk.1 acc.2 then (max acc.1 tk.2, pyStrip (replaceAll tk.1 [] acc.2))
      else acc)
    (0, text)

def periodWords : List (List Char) :=
  ["утра".data, "дня".data, "вечера".data, "ночи".data]

/-- The optional `(утра|дня|вечера|ночи)?` group. -/
def readPeriod (l : List Char) : Option (List Char) × List Char :=
  match periodWords.find? (fun w => w.isPrefixOf l) with
  | some w => (some w, l.drop w.length)
  | none => (none, l)

/-- `\s*[:.\-\s]\s*` — the separator of pattern (1); when no explicit
separator character follows the optional spaces, one of the consumed spaces
serves as the `\s` class match (regex backtracking). -/
def sepParse (l : List Char) : Option (List Char) :=
  let stripped := dropSpaces l
  match stripped with
  | c :: rest =>
    if c = ':' || c = '.' || c = '-' then some (dropSpaces rest)
    else if stripped.length < l.length then some stripped
    else none
  | [] => if l.isEmpty then none else some []

/-- `^(?:в\s*)?(\d{1,2})\s*[:.\-\s]\s*(\d{1,2})\s*(утра|дня|вечера|ночи)?$` -/
def matchP1 (l : List Char) : Option (Nat × Nat × Option (List Char)) :=
  let core := fun (l : List Char) =>
    twoThen l (fun h r1 =>
      (sepParse r1).bind (fun r2 =>
        twoThen r2 (fun m r3 =>
          let r4 := dropSpaces r3
          let pr := readPeriod r4
          if pr.2.isEmpty then some (h, m, pr.1) else none)))
  match l with
  | 'в' :: rest => core (dropSpaces rest) <|> core l
  | _ => core l

/-- The tail `(?:\s*мин(?:ут[ы])?|м)?` shared by patterns (2) and (3). -/
def minuteWordTail (r : List Char) : List Char :=
  let ra := dropSpaces r
  if ("мин".data).isPrefixOf ra then
    let x := ra.drop 3
    if ("уты".data).isPrefixOf x then x.drop 3 else x
  else
    match r with
    | 'м' :: rest => rest
    | _ => r

/-- `^в\s*(\d{1,2})\s*(утра|дня|вечера|ночи)?(?:\s*в\s*(\d{1,2})(?:\s*мин(?:ут[ы])?|м)?)?$` -/
def matchP2 (l : List Char) : Option (Nat × Option (List Char) × Nat) :=
  match l with
  | 'в' :: r0 =>
    twoThen (dropSpaces r0) (fun h r1 =>
      let pr := readPeriod (dropSpaces r1)
      let tailMin : Option Nat :=
        match dropSpaces pr.2 with
        | 'в' :: r4 =>
          twoThen (dropSpaces r4) (fun mv r5 =>
            if (minuteWordTail r5).isEmpty then some mv else none)
        | _ => none
      match tailMin with
      | some mv => some (h, pr.1, mv)
      | none => if pr.2.isEmpty then some (h, pr.1, 0) else none)
  | _ => none

/-- `^в\s*(\d{1,2})\s*(?:час(?:а|ов)?|ч)\s*(?:и\s*)?(\d{1,2})?\s*(?:мин(?:ут[ы])?|м)?\s*(утра|дня|вечера|ночи)?$` -/
def matchP3 (l : List Char) : Option (Nat × Nat × Option (List Char)) :=
  match l with
  | 'в' :: r0 =>
    twoThen (dropSpaces r0) (fun h r1 =>
      let r2 := dropSpaces r1
      (if ("часов".data).isPrefixOf r2 then some (r2.drop 5)
       else if ("часа".data).isPrefixOf r2 then some (r2.drop 4)
       else if ("час".data).isPrefixOf r2 then some (r2.drop 3)
       else if ("ч".data).isPrefixOf r2 then some (r2.drop 1)
       else none).bind (fun r3 =>
        let r4 := dropSpaces r3
        let r5 := if ("и".data).isPrefixOf r4 then dropSpaces (r4.drop 1) else r4
        let dm :=
          match twoThen r5 (fun v rr => some (v, rr)) with
          | some p => (some p.1, p.2)
          | none => ((none : Option Nat), r5)
        let r7 := dropSpaces dm.2
        let r8 := minuteWordTail r7
        let pr := readPeriod (dropSpaces r8)
        if pr.2.isEmpty then some (h, dm.1.getD 0, pr.1) else none))
  | _ => none

/-- `^(?:в\s*)?(\d{1,2})\s*(утра|дня|вечера|ночи)?$` -/
def matchP4 (l : List Char) : Option (Nat × Option (List Char)) :=
  let core := fun (l : List Char) =>
    twoThen l (fun h r1 =>
      let pr := readPeriod (dropSpaces r1)
      if pr.2.isEmpty then some (h, pr.1) else none)
  match l with
  | 'в' :: rest => core (dropSpaces rest) <|> core l
  | _ => core l

/-- timeparse.py `apply_period` (closure over `now`): with no period word,
hours 1–11 are shifted to the afternoon whenever the current hour is ≥ 12. -/
def apply_period (nowHour : Nat) (h : Nat) (period : Option (List Char)) : Nat :=
  match period with
  | none => if 12 ≤ nowHour ∧ 1 ≤ h ∧ h ≤ 11 then h % 12 + 12 else h
  | some p =>
    if p = "дня".data ∨ p = "вечера".data then (if h = 12 then 12 else h % 12 + 12)
    else if p = "утра".data ∨ p = "ночи".data then (if h = 12 then 0 else h % 24)
    else h

/-- timeparse.py `build_dt` (closure over `now`, `day_shift`,
`matched_explicit_hm`). -/
def build_dt (now : DT) (day_shift : Nat) (matched_explicit_hm : Bool)
    (h m : Nat) (period : Option (List Char)) : Option DT :=
  if h ≤ 23 ∧ m ≤ 59 then
    let h24 := apply_period now.hour h period
    let dt : DT := { now with hour := h24, minute := m }
    let dt := if day_shift ≠ 0 then addDays dt day_shift else dt
    let dt :=
      if matched_explicit_hm ∧ day_shift = 0 ∧ dtKey dt ≤ dtKey now then addDays dt 1
      else dt
    some dt
  else none

/-- timeparse.py `handle_time_parse_and_confirm`, time computation: returns
the accepted strictly-future `run_at`, `none` when the handler answers with
`time_error`. -/
def handle_time_parse (now : DT) (raw : String) : Option DT :=
  let text0 := asciiLower (pyStrip raw.data)
  let text1 := normalizeHandlerText text0
  let ds := stripDayTokens text1
  let day_shift := ds.1
  let text := ds.2
  let r1 :=
    match matchP1 text with
    | some hmp =>
      if hmp.1 ≤ 23 ∧ hmp.2.1 ≤ 59 then build_dt now day_shift true hmp.1 hmp.2.1 hmp.2.2
      else none
    | none => none
  let r2 :=
    match r1 with
    | some d => some d
    | none =>
      match matchP2 text with
      | some hpm =>
        if hpm.1 ≤ 23 ∧ hpm.2.2 ≤ 59 then build_dt now day_shift true hpm.1 hpm.2.2 hpm.2.1
        else none
      | none => none
  let r3 :=
    match r2 with
    | some d => some d
    | none =>
      match matchP3 text with
      | some hmp =>
        if hmp.1 ≤ 23 ∧ hmp.2.1 ≤ 59 then build_dt now day_shift true hmp.1 hmp.2.1 hmp.2.2
        else none
      | none => none
  let r4 :=
    match r3 with
    | some d => some d
    | none =>
      match matchP4 text with
      | some hp =>
        if hp.1 ≤ 23 then build_dt now day_shift true hp.1 0 hp.2
        else none
      | none => none
  match r4 with
  | some dt => if dtKey now < dtKey dt then some dt else none
  | none => none

/-! ## Theorems -/

theorem maxAux_ne_none {x : Int} {xs : List Int} : maxAux (x :: xs) ≠ none := by
  simp only [maxAux]
  cases maxAux xs <;> simp

theorem minAux_mem {l : List Int} {m : Int} (h : minAux l = some m) : m ∈ l := by
  induction l generalizing m with
  | nil => simp [minAux] at h
  | cons x xs ih =>
    simp only [minAux] at h
    cases hxs : minAux xs with
    | none => rw [hxs] at h; simp at h; simp [h]
    | some m' =>
      rw [hxs] at h
      simp only [Option.some.injEq] at h
      rcases min_choice x m' with hc | hc
      · rw [hc] at h; simp [h]
      · rw [hc] at h; exact List.mem_cons_of_mem _ (h ▸ ih hxs)

theorem maxAux_mem {l : List Int} {m : Int} (h : maxAux l = some m) : m ∈ l := by
  induction l generalizing m with
  | nil => simp [maxAux] at h
  | cons x xs ih =>
    simp only [maxAux] at h
    cases hxs : maxAux xs with
    | none => rw [hxs] at h; simp at h; simp [h]
    | some m' =>
      rw [hxs] at h
      simp only [Option.some.injEq] at h
      rcases max_choice x m' with hc | hc
      · rw [hc] at h; simp [h]
      · rw [hc] at h; exact List.mem_cons_of_mem _ (h ▸ ih hxs)

theorem le_maxAux {l : List Int} {a m : Int} (ha : a ∈ l) (h : maxAux l = some m) :
    a ≤ m := by
  induction l generalizing m with
  | nil => simp at ha
  | cons x xs ih =>
    simp only [maxAux] at h
    cases hxs : maxAux xs with
    | none =>
      rw [hxs] at h
      simp only [Option.some.injEq] at h
      cases xs with
      | nil =>
        simp at ha
        simp [ha, ← h]
      | cons y ys => exact absurd hxs maxAux_ne_none
    | some m' =>
      rw [hxs] at h
      simp only [Option.some.injEq] at h
      rcases List.mem_cons.mp ha with rfl | hmem
      · exact h ▸ le_max_left _ _
      · exact le_trans (ih hmem hxs) (h ▸ le_max_right _ _)

theorem maxAux_of_mem_max {l : List Int} {a : Int} (ha : a ∈ l)
    (hmax : ∀ x ∈ l, x ≤ a) : maxAux l = some a := by
  induction l with
  | nil => simp at ha
  | cons x xs ih =>
    simp only [maxAux]
    cases hxs : maxAux xs with
    | none =>
      cases xs with
      | nil => simp at ha; simp [ha]
      | cons y ys => exact absurd hxs maxAux_ne_none
    | some m =>
      have hm_mem : m ∈ xs := maxAux_mem hxs
      have hmle : m ≤ a := hmax m (List.mem_cons_of_mem _ hm_mem)
      rcases List.mem_cons.mp ha with rfl | hmem
      · simp [max_eq_left hmle]
      · have hxa : x ≤ a := hmax x (List.mem_cons_self _ _)
        have : maxAux xs = some a := ih hmem (fun y hy => hmax y (List.mem_cons_of_mem _ hy))
        rw [hxs] at this
        simp only [Option.some.injEq] at this
        subst this
        simp [max_eq_right hxa]

theorem compute_next_run_strict_future {rrule : Option (List Int)}
    {run_at_utc : Option Int} {after t : Int}
    (h : compute_next_run rrule run_at_utc after = some t) : after < t := by
  cases rrule with
  | some occs =>
    simp only [compute_next_run, ruleAfter] at h
    have := minAux_mem h
    exact (List.mem_filter.mp this).2 |> of_decide_eq_true
  | none =>
    cases run_at_utc with
    | some v =>
      simp only [compute_next_run] at h
      by_cases hv : after < v
      · rw [if_pos hv] at h; cases h; exact hv
      · rw [if_neg hv] at h; cases h
    | none => simp [compute_next_run] at h

theorem new_attempt_gt {logs : List DRow} {rid : String} {planned : Int}
    {ok : Bool} {error : Option String} {r : DRow} (hr : r ∈ logs)
    (hk : sameKey rid planned r = true) :
    r.attempt_no < (log_delivery_attempt logs rid planned ok error).1.attempt_no := by
  simp only [log_delivery_attempt]
  have hmem : r.attempt_no ∈ (logs.filter (sameKey rid planned)).map (fun r => r.attempt_no) :=
    List.mem_map_of_mem _ (List.mem_filter.mpr ⟨hr, hk⟩)
  cases hmax : maxAttemptFor logs rid planned with
  | none =>
    exfalso
    simp only [maxAttemptFor] at hmax
    cases hlist : (logs.filter (sameKey rid planned)).map (fun r => r.attempt_no) with
    | nil => rw [hlist] at hmem; simp at hmem
    | cons y ys =>
      rw [hlist] at hmax
      simp only [maxAux] at hmax
      cases h2 : maxAux ys with
      | none => rw [h2] at hmax; cases hmax
      | some m => rw [h2] at hmax; cases hmax
  | some m =>
    have : r.attempt_no ≤ m := le_maxAux hmem hmax
    simp only [hmax]
    omega

theorem ledger_unique_step {logs : List DRow} (h : uniqueTriples logs)
    (rid : String) (planned : Int) (ok : Bool) (error : Option String) :
    uniqueTriples (log_delivery_attempt logs rid planned ok error).2 := by
  have hsnd :
      (log_delivery_attempt logs rid planned ok error).2 =
        logs ++ [(log_delivery_attempt logs rid planned ok error).1] := rfl
  rw [hsnd]
  unfold uniqueTriples
  rw [List.pairwise_append]
  refine ⟨h, List.pairwise_singleton _ _, ?_⟩
  intro a ha b hb
  simp only [List.mem_singleton] at hb
  subst hb
  intro ⟨h1, h2, h3⟩
  by_cases hk : sameKey rid planned a = true
  · have := @new_attempt_gt logs rid planned ok error a ha hk
    omega
  · apply hk
    simp only [sameKey]
    have hrid : (log_delivery_attempt logs rid planned ok error).1.reminder_id = rid := rfl
    have hpl : (log_delivery_attempt logs rid planned ok error).1.planned_utc = planned := rfl
    rw [h1, h2, hrid, hpl]
    simp

/-- C3: for a one-shot schedule (no recurrence rule), `compute_next_run`
returns the stored instant exactly when that instant is strictly after the
reference instant `after`, and `none` (exhausted) otherwise — in particular
`none` when the instant equals `after`. -/
theorem oneshot_compute_next_run (t after : Int) :
    (compute_next_run none (some t) after = some t ↔ after < t) ∧
    (compute_next_run none (some t) after = none ↔ t ≤ after) ∧
    compute_next_run none (some t) t = none := by
  refine ⟨⟨fun h => ?_, fun h => ?_⟩, ⟨fun h => ?_, fun h => ?_⟩, ?_⟩
  · by_cases hc : after < t
    · exact hc
    · simp [compute_next_run, hc] at h
  · simp [compute_next_run, h]
  · by_cases hc : after < t
    · simp [compute_next_run, hc] at h
    · omega
  · have hc : ¬after < t := by omega
    simp [compute_next_run, hc]
  · simp [compute_next_run]

/-- C4 (code bug): `finalize_one_shot_after_send` performs no `status` check
before re-registering.  On a reminder already `cancelled` (with a recurrence
that still has a future occurrence), it overwrites `next_run_utc` and
registers a fresh timer for the cancelled reminder, contradicting the
required cancel-during-fire abort. -/
theorem finalize_ignores_cancelled_status :
    finalize_one_shot_after_send 50
        [⟨"r1", some [100], none, none, MPolicy.skip, RStatus.cancelled⟩] [] "r1"
      = ([⟨"r1", some [100], none, some 100, MPolicy.skip, RStatus.cancelled⟩],
         [("reminder:r1", 100)]) := by decide

/-- C5 (counterexample): `cancel_reminder` on a reminder that exists but is
already terminal (`done`) returns `true`, not `false` — the returned Boolean
is `set_reminder_status`'s `rowcount > 0`, which only tests existence. -/
theorem cancel_reminder_true_on_terminal :
    (cancel_reminder [⟨"r1", none, some 5, none, MPolicy.send, RStatus.done⟩]
        [] "r1").2.2 = true ∧
    (⟨"r1", none, some 5, none, MPolicy.send, RStatus.done⟩ : ReminderR).status
      = RStatus.done := by decide

/-- C5 (amended): `cancel_reminder` returns `false` exactly when no reminder
with the given id exists; whenever the row exists — terminal or not — it sets
status `cancelled`, clears `next_occurrence_utc`, removes the timer
(tolerating an already-absent timer: an absent job leaves the job table
unchanged), and returns `true`. -/
theorem cancel_reminder_spec (db : List ReminderR) (jobs : Jobs) (rid : String) :
    ((cancel_reminder db jobs rid).2.2 = true ↔ ∃ r ∈ db, r.id = rid) ∧
    (∀ r' ∈ (cancel_reminder db jobs rid).1, r'.id = rid →
      r'.status = RStatus.cancelled ∧ r'.next_run_utc = none) ∧
    (∀ p ∈ (cancel_reminder db jobs rid).2.1, p.1 ≠ reminder_job_id rid) ∧
    ((∀ p ∈ jobs, p.1 ≠ reminder_job_id rid) → (cancel_reminder db jobs rid).2.1 = jobs) := by
  refine ⟨?_, ?_, ?_, ?_⟩
  · simp only [cancel_reminder, set_reminder_status, List.any_eq_true, beq_iff_eq]
  · intro r' hmem hid
    simp only [cancel_reminder, set_next_run, set_reminder_status, List.map_map] at hmem
    rcases List.mem_map.mp hmem with ⟨x, _, rfl⟩
    by_cases hx : x.id = rid
    · simp [hx]
    · simp only [Function.comp, if_neg hx] at hid ⊢
      exact absurd hid hx
  · intro p hmem
    simp only [cancel_reminder, remove_scheduled_job] at hmem
    have := List.of_mem_filter hmem
    simpa [bne_iff_ne] using this
  · intro h
    simp only [cancel_reminder, remove_scheduled_job]
    apply List.filter_eq_self.mpr
    intro p hp
    simpa [bne_iff_ne] using h p hp

/-- C5 witness: removing the timer for a reminder with no registered job
leaves the (empty) job table unchanged. -/
theorem cancel_reminder_spec_witness :
    (cancel_reminder [⟨"r2", none, some 5, none, MPolicy.send, RStatus.active⟩]
        [] "r2").2.1 = [] :=
  (cancel_reminder_spec [⟨"r2", none, some 5, none, MPolicy.send, RStatus.active⟩]
      [] "r2").2.2.2 (by decide)

/-- C1: during rehydration, every active reminder whose persisted
`next_run_utc` lies in the past and whose misfire policy is skip-to-next has
its stored `next_run_utc` replaced by `compute_next_run(after = now)` — an
instant strictly after `now`, for which the timer is registered — or, when
the recurrence is exhausted, set to `none` with the status transitioned to
`done` and no timer registered; in no case is a timer registered at a
non-future instant. -/
theorem rehydrate_skip_updates_to_future (db : List ReminderR)
    (now ahead_seconds : Int) (r : ReminderR) (t : Int) (hmem : r ∈ db)
    (hact : r.status = RStatus.active) (hnext : r.next_run_utc = some t)
    (hpast : t ≤ now) (hpol : r.misfire_policy = MPolicy.skip) :
    (rehydrateOne now ahead_seconds r).1 ∈ (rehydrate_scheduler_from_db now ahead_seconds db).1 ∧
    (rehydrateOne now ahead_seconds r).1.next_run_utc
      = compute_next_run r.rrule r.run_at_utc now ∧
    ((∃ nxt, compute_next_run r.rrule r.run_at_utc now = some nxt ∧ now < nxt ∧
        (rehydrateOne now ahead_seconds r).1.next_run_utc = some nxt ∧
        (rehydrateOne now ahead_seconds r).2 = some nxt ∧
        (reminder_job_id r.id, nxt) ∈ (rehydrate_scheduler_from_db now ahead_seconds db).2) ∨
      (compute_next_run r.rrule r.run_at_utc now = none ∧
        (rehydrateOne now ahead_seconds r).1.next_run_utc = none ∧
        (rehydrateOne now ahead_seconds r).1.status = RStatus.done ∧
        (rehydrateOne now ahead_seconds r).2 = none)) ∧
    (∀ u, (rehydrateOne now ahead_seconds r).2 = some u → now < u) := by
  have hsel : rehydrateSelect r = true := by
    simp [rehydrateSelect, hact, hnext]
  have hone : rehydrateOne now ahead_seconds r =
      (match compute_next_run r.rrule r.run_at_utc now with
       | none => ({ r with next_run_utc := none, status := RStatus.done }, none)
       | some nxt => ({ r with next_run_utc := some nxt }, some nxt)) := by
    simp only [rehydrateOne, hnext, hpol, if_pos hpast]
  have hmemdb : (rehydrateOne now ahead_seconds r).1
      ∈ (rehydrate_scheduler_from_db now ahead_seconds db).1 := by
    simp only [rehydrate_scheduler_from_db]
    exact List.mem_map.mpr ⟨r, hmem, by rw [if_pos hsel]⟩
  refine ⟨hmemdb, ?_, ?_, ?_⟩
  · rw [hone]
    cases compute_next_run r.rrule r.run_at_utc now <;> simp
  · cases hcn : compute_next_run r.rrule r.run_at_utc now with
    | none => exact Or.inr (by rw [hone, hcn]; exact ⟨rfl, rfl, rfl, rfl⟩)
    | some nxt =>
      refine Or.inl ⟨nxt, rfl, compute_next_run_strict_future hcn, ?_, ?_, ?_⟩
      · rw [hone, hcn]
      · rw [hone, hcn]
      · simp only [rehydrate_scheduler_from_db]
        refine List.mem_filterMap.mpr ⟨r, hmem, ?_⟩
        rw [if_pos hsel, hone, hcn]
        rfl
  · intro u hu
    rw [hone] at hu
    cases hcn : compute_next_run r.rrule r.run_at_utc now with
    | none => rw [hcn] at hu; cases hu
    | some nxt =>
      rw [hcn] at hu
      cases hu
      exact compute_next_run_strict_future hcn

/-- C1 witness: a concrete overdue skip-policy reminder (next run 10, now 50,
single remaining occurrence at 100) has its stored next run recomputed to the
strictly-future 100. -/
theorem rehydrate_skip_updates_to_future_witness :
    (rehydrateOne 50 1 ⟨"r1", some [100], none, some 10, MPolicy.skip, RStatus.active⟩).1.next_run_utc
      = compute_next_run (some [100]) none 50 :=
  (rehydrate_skip_updates_to_future
      [⟨"r1", some [100], none, some 10, MPolicy.skip, RStatus.active⟩] 50 1
      ⟨"r1", some [100], none, some 10, MPolicy.skip, RStatus.active⟩ 10
      (by decide) rfl rfl (by decide) rfl).2.1

/-- C2: `log_delivery_attempt` assigns `attempt_no = 1` when no row with the
same `(reminder_id, planned_utc)` exists, and `1 +` the maximum existing
`attempt_no` for that key otherwise; consequently any ledger built by
`log_delivery_attempt` alone has pairwise distinct
`(reminder_id, planned_utc, attempt_no)` triples. -/
theorem log_delivery_attempt_spec :
    (∀ logs rid planned ok err, logs.filter (sameKey rid planned) = [] →
      (log_delivery_attempt logs rid planned ok err).1.attempt_no = 1) ∧
    (∀ logs rid planned ok err (r : DRow), r ∈ logs → sameKey rid planned r = true →
      (∀ r' ∈ logs, sameKey rid planned r' = true → r'.attempt_no ≤ r.attempt_no) →
      (log_delivery_attempt logs rid planned ok err).1.attempt_no = 1 + r.attempt_no) ∧
    (∀ reqs, uniqueTriples (runLedger reqs)) := by
  refine ⟨?_, ?_, ?_⟩
  · intro logs rid planned ok err h
    simp [log_delivery_attempt, maxAttemptFor, h, maxAux]
  · intro logs rid planned ok err r hr hk hmax
    have hmem : r.attempt_no ∈ (logs.filter (sameKey rid planned)).map (fun x => x.attempt_no) :=
      List.mem_map_of_mem _ (List.mem_filter.mpr ⟨hr, hk⟩)
    have hbound : ∀ x ∈ (logs.filter (sameKey rid planned)).map (fun x => x.attempt_no),
        x ≤ r.attempt_no := by
      intro x hx
      rcases List.mem_map.mp hx with ⟨r', hr', rfl⟩
      rcases List.mem_filter.mp hr' with ⟨hr'mem, hk'⟩
      exact hmax r' hr'mem hk'
    have : maxAttemptFor logs rid planned = some r.attempt_no :=
      maxAux_of_mem_max hmem hbound
    simp [log_delivery_attempt, this, Int.add_comm]
  · intro reqs
    have key : ∀ (rs : List DReq) (logs : List DRow), uniqueTriples logs →
        uniqueTriples (rs.foldl
          (fun logs q =>
            (log_delivery_attempt logs q.reminder_id q.planned_utc q.ok q.error).2) logs) := by
      intro rs
      induction rs with
      | nil => intro logs h; exact h
      | cons q qs ih =>
        intro logs h
        exact ih _ (ledger_unique_step h q.reminder_id q.planned_utc q.ok q.error)
    exact key reqs [] List.Pairwise.nil

/-- C2 witness: logging a second attempt for the same
`(reminder_id, planned_utc)` yields `attempt_no = 1 + 1`. -/
theorem log_delivery_attempt_spec_witness :
    (log_delivery_attempt [⟨"r", 5, 1, true, none⟩] "r" 5 false none).1.attempt_no = 1 + 1 :=
  log_delivery_attempt_spec.2.1 [⟨"r", 5, 1, true, none⟩] "r" 5 false none
    ⟨"r", 5, 1, true, none⟩ (by decide) (by decide) (by decide)

theorem timesToCrons_forall2 {dow : String} {times : List String}
    {pairs : List (Nat × Nat)}
    (h : List.Forall₂ (fun t hm => _hhmm_to_pair t = Except.ok hm) times pairs) :
    timesToCrons dow times = Except.ok (pairs.map (fun hm =>
      toString hm.2 ++ " " ++ toString hm.1 ++ " * * " ++ dow)) := by
  induction h with
  | nil => rfl
  | cons h1 _ ih =>
    simp only [timesToCrons, h1, ih, List.map_cons]
    rfl

/-- C6: for a weekly plan whose listed times all parse, `plan_to_crons`
emits one 5-field cron string per listed time whose day-of-week field is the
comma-joined canonicalized weekday set `_dow_csv` (`weekend` → `sat,sun`,
`weekdays` → `mon,tue,wed,thu,fri`), defaulting to the Monday-through-Friday
set when no listed day canonicalizes; in particular kind `weekly` with
`days_of_week = ["weekend"]` and `times = ["07:00"]` yields exactly
`["0 7 * * sat,sun"]`. -/
theorem weekly_plan_to_crons (plan : IntervalPlan) (hk : plan.kind = "weekly")
    (pairs : List (Nat × Nat))
    (hp : List.Forall₂ (fun t hm => _hhmm_to_pair t = Except.ok hm) plan.times pairs) :
    plan_to_crons plan = Except.ok (pairs.map (fun hm =>
      toString hm.2 ++ " " ++ toString hm.1 ++ " * * "
        ++ (if _dow_csv plan.days_of_week = "" then "mon,tue,wed,thu,fri"
            else _dow_csv plan.days_of_week))) ∧
    _dow_csv ["weekend"] = "sat,sun" ∧
    _dow_csv ["weekdays"] = "mon,tue,wed,thu,fri" ∧
    _dow_csv ["no-such-day"] = "" ∧
    plan_to_crons ⟨"weekly", ["07:00"], ["weekend"], "UTC", none, none, none, none⟩
      = Except.ok ["0 7 * * sat,sun"] := by
  refine ⟨?_, by decide, by decide, by decide, by decide⟩
  have hstep : plan_to_crons plan =
      timesToCrons (if _dow_csv plan.days_of_week = "" then "mon,tue,wed,thu,fri"
        else _dow_csv plan.days_of_week) plan.times := by
    unfold plan_to_crons
    rw [hk]
    rfl
  rw [hstep]
  exact timesToCrons_forall2 hp

/-- C6 witness: the Scenario B instance, via the theorem. -/
theorem weekly_plan_to_crons_witness :
    plan_to_crons ⟨"weekly", ["07:00"], ["weekend"], "UTC", none, none, none, none⟩
      = Except.ok ["0 7 * * sat,sun"] :=
  (weekly_plan_to_crons ⟨"weekly", ["07:00"], ["weekend"], "UTC", none, none, none, none⟩
      rfl [(7, 0)] (List.Forall₂.cons (by decide) List.Forall₂.nil)).2.2.2.2

theorem hhmm_ok_ne_empty {s : String} {p : Nat × Nat}
    (h : _hhmm_to_pair s = Except.ok p) : s ≠ "" := by
  intro hemp
  subst hemp
  rw [show _hhmm_to_pair "" = Except.error ("Bad HH:MM: " ++ "") from rfl] at h
  cases h

theorem window_crons_eq (plan : IntervalPlan) (hk : plan.kind = "window_interval")
    (ws we : String) (n : Int) (hws : plan.window_start = some ws)
    (hwe : plan.window_end = some we) (hn : plan.interval_minutes = some n)
    (hnne : n ≠ 0) (sh sm eh em : Nat) (hs : _hhmm_to_pair ws = Except.ok (sh, sm))
    (he : _hhmm_to_pair we = Except.ok (eh, em)) :
    plan_to_crons plan
      = Except.ok ["*/" ++ toString n ++ " " ++ (toString sh ++ "-" ++ toString eh)
          ++ " * * " ++ (if _dow_csv plan.days_of_week = "" then "*"
              else _dow_csv plan.days_of_week)] := by
  have hwsne : ws ≠ "" := hhmm_ok_ne_empty hs
  have hwene : we ≠ "" := hhmm_ok_ne_empty he
  have hstep : plan_to_crons plan =
      (if (!pyTruthyStr plan.window_start || !pyTruthyStr plan.window_end ||
          !pyTruthyInt plan.interval_minutes) = true then
        Except.error "Incomplete window_interval"
      else do
        let sp ← _hhmm_to_pair (plan.window_start.getD "")
        let ep ← _hhmm_to_pair (plan.window_end.getD "")
        let hours := toString sp.1 ++ "-" ++ toString ep.1
        let mins := "*/" ++ toString (plan.interval_minutes.getD 0)
        let dow := let d := _dow_csv plan.days_of_week; if d = "" then "*" else d
        Except.ok [mins ++ " " ++ hours ++ " * * " ++ dow]) := by
    unfold plan_to_crons
    rw [hk]
    rfl
  rw [hstep, hws, hwe, hn]
  rw [if_neg (by simp [pyTruthyStr, pyTruthyInt, hwsne, hwene, hnne])]
  simp only [Option.getD_some, hs, he]
  rfl

/-- C9: for a window-interval plan with window start `S:sm`, end `E:em` and
`interval_minutes = N ≥ 1`, `plan_to_crons` produces exactly one cron string
whose minute field is the step `*/N` and whose hour field is the range
`S-E`; the output ignores the window start's minute entirely (replacing the
start with any time of the same hour leaves the output unchanged). -/
theorem window_interval_plan_to_crons (plan : IntervalPlan)
    (hk : plan.kind = "window_interval") (ws we : String) (n : Int)
    (hws : plan.window_start = some ws) (hwe : plan.window_end = some we)
    (hn : plan.interval_minutes = some n) (hn1 : 1 ≤ n)
    (sh sm eh em : Nat) (hs : _hhmm_to_pair ws = Except.ok (sh, sm))
    (he : _hhmm_to_pair we = Except.ok (eh, em)) :
    plan_to_crons plan
      = Except.ok ["*/" ++ toString n ++ " " ++ (toString sh ++ "-" ++ toString eh)
          ++ " * * " ++ (if _dow_csv plan.days_of_week = "" then "*"
              else _dow_csv plan.days_of_week)] ∧
    (∀ ws' sm', _hhmm_to_pair ws' = Except.ok (sh, sm') →
      plan_to_crons { plan with window_start := some ws' } = plan_to_crons plan) := by
  have hnne : n ≠ 0 := by omega
  refine ⟨window_crons_eq plan hk ws we n hws hwe hn hnne sh sm eh em hs he, ?_⟩
  intro ws' sm' hs'
  rw [window_crons_eq plan hk ws we n hws hwe hn hnne sh sm eh em hs he,
    window_crons_eq { plan with window_start := some ws' } hk ws' we n rfl hwe hn hnne
      sh sm' eh em hs' he]

/-- C9 witness: a concrete window-interval plan (09:15–18:00 every 15
minutes): one cron, minute field `*/15`, hour field `9-18`, the `:15` start
minute ignored. -/
theorem window_interval_plan_to_crons_witness :
    plan_to_crons ⟨"window_interval", [], [], "UTC", none, some "09:15", some "18:00", some 15⟩
      = Except.ok ["*/15 9-18 * * *"] :=
  (window_interval_plan_to_crons
      ⟨"window_interval", [], [], "UTC", none, some "09:15", some "18:00", some 15⟩
      rfl "09:15" "18:00" 15 rfl rfl rfl (by decide) 9 15 18 0
      (by decide) (by decide)).1

theorem range_map_succ_shift {α : Type} (g : Nat → α) (n : Nat) :
    (List.range (n + 1)).map g = g 0 :: (List.range n).map (fun k => g (k + 1)) := by
  rw [List.range_succ_eq_map, List.map_cons, List.map_map]
  rfl

theorem windowLoop_eq (endM step : Nat) (hstep : 1 ≤ step) :
    ∀ fuel cur, (if cur ≤ endM then (endM - cur) / step + 1 else 0) < fuel →
      windowLoopFuel endM step fuel cur
        = some (if cur ≤ endM then
            (List.range ((endM - cur) / step + 1)).map (fun k => fmtHM (cur + k * step))
          else []) := by
  intro fuel
  induction fuel with
  | zero => intro cur h; omega
  | succ f ih =>
    intro cur h
    by_cases hc : cur ≤ endM
    · rw [if_pos hc] at h
      rw [if_pos hc]
      simp only [windowLoopFuel, if_pos hc]
      by_cases hc2 : cur + step ≤ endM
      · have hdiv : (endM - cur) / step = (endM - (cur + step)) / step + 1 := by
          have h1 : step ≤ endM - cur := by omega
          have h2 : endM - (cur + step) = endM - cur - step := by omega
          rw [h2, Nat.div_eq_sub_div (by omega) h1]
        have hfuel : (endM - (cur + step)) / step + 1 < f := by
          have h' : (endM - (cur + step)) / step + 1 + 1 ≤ f := by
            rw [← hdiv]
            exact Nat.lt_succ_iff.mp h
          exact Nat.lt_of_lt_of_le (Nat.lt_succ_self _) h'
        have hrec := ih (cur + step) (by rw [if_pos hc2]; exact hfuel)
        rw [hrec, if_pos hc2]
        simp only [Option.map_some']
        rw [hdiv, range_map_succ_shift (fun k => fmtHM (cur + k * step))
          ((endM - (cur + step)) / step + 1)]
        have hfun : (fun k => fmtHM (cur + (k + 1) * step))
            = (fun k => fmtHM (cur + step + k * step)) := by
          funext k
          congr 1
          ring
        rw [hfun]
        simp
      · have hf0 : 0 < f :=
          Nat.lt_of_lt_of_le (Nat.succ_pos _) (Nat.lt_succ_iff.mp h)
        have hrec := ih (cur + step) (by rw [if_neg (by omega)]; exact hf0)
        rw [hrec, if_neg (by omega)]
        have hdiv0 : (endM - cur) / step = 0 := Nat.div_eq_of_lt (by omega)
        rw [hdiv0, show List.range 1 = [0] from rfl]
        simp
    · rw [if_neg hc] at h
      rw [if_neg hc]
      simp only [windowLoopFuel, if_neg hc]

theorem windowLoop_step_zero (endM startM : Nat) (h : startM ≤ endM) :
    ∀ fuel, windowLoopFuel endM 0 fuel startM = none := by
  intro fuel
  induction fuel with
  | zero => rfl
  | succ f ih =>
    simp only [windowLoopFuel, if_pos h, Nat.add_zero, ih, Option.map_none']

/-- C10: for valid `HH:MM` inputs with start ≤ end, the window loop
terminates whenever `step_minutes ≥ 1` (fuel `endM + 2` suffices) and
returns exactly the ascending arithmetic progression
`start, start + step, …` of `HH:MM` strings not exceeding the end; with
`step_minutes = 0` the loop consumes any amount of fuel without finishing —
the while loop does not terminate, so `step_minutes ≥ 1` is a genuine
precondition. -/
theorem compute_times_in_window_spec (ws we : String) (sh sm eh em : Nat)
    (hs : strptimeHM ws = some (sh, sm)) (he : strptimeHM we = some (eh, em))
    (hle : sh * 60 + sm ≤ eh * 60 + em) :
    (∀ step, 1 ≤ step → compute_times_in_window ws we step
      = some ((List.range ((eh * 60 + em - (sh * 60 + sm)) / step + 1)).map
          (fun k => fmtHM (sh * 60 + sm + k * step)))) ∧
    (∀ fuel, windowLoopFuel (eh * 60 + em) 0 fuel (sh * 60 + sm) = none) := by
  constructor
  · intro step hstep
    have hcw : compute_times_in_window ws we step
        = windowLoopFuel (eh * 60 + em) step (eh * 60 + em + 2) (sh * 60 + sm) := by
      unfold compute_times_in_window
      rw [hs, he]
    have hbound : (if sh * 60 + sm ≤ eh * 60 + em then
        (eh * 60 + em - (sh * 60 + sm)) / step + 1 else 0) < eh * 60 + em + 2 := by
      rw [if_pos hle]
      have := Nat.div_le_self (eh * 60 + em - (sh * 60 + sm)) step
      omega
    rw [hcw, windowLoop_eq (eh * 60 + em) step hstep (eh * 60 + em + 2) (sh * 60 + sm) hbound,
      if_pos hle]
  · exact fun fuel => windowLoop_step_zero _ _ hle fuel

/-- C10 witness: the 09:00–10:00 window at a 30-minute step. -/
theorem compute_times_in_window_spec_witness :
    compute_times_in_window "09:00" "10:00" 30
      = some ((List.range ((10 * 60 + 0 - (9 * 60 + 0)) / 30 + 1)).map
          (fun k => fmtHM (9 * 60 + 0 + k * 30))) :=
  (compute_times_in_window_spec "09:00" "10:00" 9 0 10 0 (by decide) (by decide)
      (by decide)).1 30 (by decide)

/-- C8: `parse_interval_with_ai` maps a failed LLM request to `none`, and —
whatever the response content (empty, commentary-wrapped, fenced, quoted, or
unparseable) — when every JSON-parsing attempt fails to produce a dict, every
extraction stage (fenced block, balanced `{...}` block, un-escaped quoted
blob) falls through and the result is `none` rather than an exception (the
model is a total function). -/
theorem parse_interval_with_ai_total_failure {J : Type}
    (jsonLoads : String → Option J) (isDict : J → Bool)
    (unescape : String → Option String)
    (hfail : ∀ s d, jsonLoads s = some d → isDict d = false) :
    (∀ e, parse_interval_with_ai jsonLoads isDict unescape (Except.error e) = none) ∧
    (∀ content, parse_interval_with_ai jsonLoads isDict unescape (Except.ok content) = none) := by
  refine ⟨fun e => rfl, fun content => ?_⟩
  unfold parse_interval_with_ai
  cases hpay : _extract_json_payload (String.mk (pyStrip ((content.getD "")).data)) with
  | none => simp [hpay]
  | some payload =>
    simp only [hpay]
    by_cases hemp : payload = ""
    · simp [hemp]
    · rw [if_neg hemp]
      cases hjl : jsonLoads payload with
      | some d => simp [hfail payload d hjl]
      | none =>
        simp only
        have hfu : (if (payload.data.head? = some '"' && payload.data.getLast? = some '"') = true then
            match unescape (stripFirstLast payload) with
            | some unq =>
              match jsonLoads unq with
              | some d => if isDict d then some d else none
              | none => none
            | none => none
          else none) = (none : Option J) := by
          by_cases hq : (payload.data.head? = some '"' && payload.data.getLast? = some '"') = true
          · rw [if_pos hq]
            cases hu : unescape (stripFirstLast payload) with
            | none => rfl
            | some unq =>
              show (match jsonLoads unq with
                    | some d => if isDict d then some d else none
                    | none => none) = none
              cases hju : jsonLoads unq with
              | none => rfl
              | some d => simp [hfail unq d hju]
          · rw [if_neg hq]
        rw [hfu]
        cases hbl : _extract_balanced_json_block payload with
        | none => rfl
        | some block =>
          show (if block ≠ payload then
                match jsonLoads block with
                | some d => if isDict d then some d else none
                | none => none
              else none) = none
          by_cases hne : block ≠ payload
          · rw [if_pos hne]
            cases hjb : jsonLoads block with
            | none => rfl
            | some d => simp [hfail block d hjb]
          · rw [if_neg hne]

/-- C8 witness: with a JSON parser that always fails, an ordinary text
response yields `none`. -/
theorem parse_interval_with_ai_total_failure_witness :
    parse_interval_with_ai (fun _ => (none : Option Unit)) (fun _ => true) (fun _ => none)
      (Except.ok (some "please remind me daily")) = none :=
  (parse_interval_with_ai_total_failure (fun _ => (none : Option Unit)) (fun _ => true)
      (fun _ => none) (fun s d h => by cases h)).2 (some "please remind me daily")

/-- C7 (counterexample): with reference instant 2024-01-01 20:00 local, the
cited handler pipeline (timeparse.py `handle_time_parse_and_confirm` via
`apply_period`/`build_dt`) resolves "завтра в 7" to 2024-01-02 19:00 — not
07:00 as claimed: its add-12 PM bias fires whenever the reference hour is
≥ 12, and is not overridden by the explicit tomorrow word. -/
theorem handler_tomorrow_seven_is_1900 :
    handle_time_parse ⟨2024, 1, 1, 20, 0⟩ "завтра в 7" = some ⟨2024, 1, 2, 19, 0⟩ ∧
    some (⟨2024, 1, 2, 19, 0⟩ : DT) ≠ some (⟨2024, 1, 2, 7, 0⟩ : DT) := by decide

/-- C7 (amended): the two duplicated parsers disagree on "завтра в 7" at
2024-01-01 20:00 local.  `parse_human_datetime` (time_parse.py) resolves it
to 2024-01-02 07:00 — the explicit tomorrow word fixes the date and its
PM bias (tied to "сегодня"/"today") does not apply.  The handler pipeline of
timeparse.py instead applies the add-12 bias whenever no period word is
given, the reference hour is ≥ 12 and the parsed hour is 1–11 — independent
of any day word — and resolves the same input to 2024-01-02 19:00. -/
theorem tomorrow_seven_parse (nowD : DT) (h : Nat) (h12 : 12 ≤ nowD.hour)
    (h1 : 1 ≤ h) (h11 : h ≤ 11) :
    apply_period nowD.hour h none = h % 12 + 12 ∧
    parse_human_datetime ⟨2024, 1, 1, 20, 0⟩ "завтра в 7" "ru"
      = ⟨some ⟨2024, 1, 2, 7, 0⟩, none, false⟩ ∧
    handle_time_parse ⟨2024, 1, 1, 20, 0⟩ "завтра в 7" = some ⟨2024, 1, 2, 19, 0⟩ := by
  refine ⟨?_, by decide, by decide⟩
  show (if 12 ≤ nowD.hour ∧ 1 ≤ h ∧ h ≤ 11 then h % 12 + 12 else h) = h % 12 + 12
  rw [if_pos ⟨h12, h1, h11⟩]

/-- C7 witness: the PM bias of the handler at reference hour 20 and parsed
hour 7. -/
theorem tomorrow_seven_parse_witness :
    apply_period 20 7 none = 7 % 12 + 12 :=
  (tomorrow_seven_parse ⟨2024, 1, 1, 20, 0⟩ 7 (by decide) (by decide) (by decide)).1

end NotifyBot
